import Mathlib

/-!
Shallow embedding of `scripts/process_data.py` (the rudc-rec batch
aggregation pipeline) and proofs about its identity utilities, aggregation
pass and statistic builders.

Modelling conventions:
* Python strings are modelled as `List Char` (`Str`), with Lean string
  literals entering through `.data`.  Python's `<` on strings is
  code-point lexicographic (`pyLt`).
* Python dicts are modelled as insertion-ordered association lists
  (`List (Str × α)`); `defaultdict` counter semantics ("missing key reads
  as zero") are captured by `lookupD`/`bumpN`, which append fresh keys at
  the end, matching Python dict insertion order.
* Python sets built from deck mainboards are modelled as
  first-occurrence-ordered duplicate-free lists (`firstDedup`).
* `datetime` instants are modelled as integers measured in days;
  `parse_dt` results are carried in the deck record as `Option Int`
  (`none` = missing or unparseable timestamp).  ISO-8601 parsing itself is
  not modelled; no claim depends on the parser internals, only on
  parseable-versus-not.
* Python's one-decimal floats (`round(x, 1)`) are represented exactly by
  their integer number of tenths (`66.7` is stored as `667 : ℤ`);
  `round(count / denom * 100, 1)` becomes round-half-to-even integer
  arithmetic (`rheDiv`), and `toPct` maps tenths back to the rational
  value.  `round1 : ℚ → ℚ` is Python's `round(·, 1)` on exact rationals;
  bridging lemmas connect the two.  Float representation error is out of
  scope.
* A Python expression that can raise is modelled with `Except Str`;
  `scryfall_image` returns `Except.error` exactly where the Python code
  raises `IndexError`.
-/

namespace RudcRec

/-- Python strings, modelled by their character lists. -/
abbrev Str := List Char

instance {ε α : Type} [DecidableEq ε] [DecidableEq α] : DecidableEq (Except ε α) := fun x y =>
  match x, y with
  | .ok a, .ok b =>
    if h : a = b then isTrue (by rw [h]) else isFalse (by intro hc; cases hc; exact h rfl)
  | .error a, .error b =>
    if h : a = b then isTrue (by rw [h]) else isFalse (by intro hc; cases hc; exact h rfl)
  | .ok _, .error _ => isFalse (by intro hc; cases hc)
  | .error _, .ok _ => isFalse (by intro hc; cases hc)

/-- Python `<` on strings: code-point lexicographic comparison. -/
def pyLt : Str → Str → Bool
  | [], [] => false
  | [], _ :: _ => true
  | _ :: _, [] => false
  | a :: s, b :: t => if a < b then true else if b < a then false else pyLt s t

/-- Python `needle in hay` on strings (empty needle is contained). -/
def containsSub (hay needle : Str) : Bool :=
  if needle.isPrefixOf hay then true
  else
    match hay with
    | [] => false
    | _ :: t => containsSub t needle

/-- Python `str.lower` on the ASCII range (card data is ASCII-safe for
the slug alphabet; non-ASCII characters are dropped by `keepChar`
anyway). -/
def lowerChar (c : Char) : Char :=
  if 'A' ≤ c && c ≤ 'Z' then Char.ofNat (c.toNat + 32) else c

/-- Whitespace class of Python's `\s` for the characters occurring in
card names. -/
def isSpace (c : Char) : Bool :=
  c == ' ' || c == '\t' || c == '\n' || c == '\r'

/-- Characters kept by `re.sub(r"[^a-z0-9\s-]", "", s)`. -/
def keepChar (c : Char) : Bool :=
  ('a' ≤ c && c ≤ 'z') || ('0' ≤ c && c ≤ '9') || isSpace c || c == '-'

/-- `name.split(" // ")[0]`: everything before the first occurrence of
the face separator (the whole string when the separator is absent). -/
def frontFace : Str → Str
  | [] => []
  | c :: t => if (" // ".data).isPrefixOf (c :: t) then [] else c :: frontFace t

/-- `re.sub(r"[\s]+", "-", s)`: each maximal whitespace run becomes one
hyphen. -/
def squashWs : Str → Str
  | [] => []
  | [c] => if isSpace c then ['-'] else [c]
  | c1 :: c2 :: t =>
    if isSpace c1 && isSpace c2 then squashWs (c2 :: t)
    else (if isSpace c1 then '-' else c1) :: squashWs (c2 :: t)

/-- Python `str.strip("-")`. -/
def stripDash (l : Str) : Str :=
  ((l.dropWhile (· == '-')).reverse.dropWhile (· == '-')).reverse

/-- `slugify` from `process_data.py`: front face before " // ",
lowercase, drop characters outside `[a-z0-9\s-]`, whitespace runs to one
hyphen, strip hyphens at both ends. -/
def slugify (name : Str) : Str :=
  stripDash (squashWs (((frontFace name).map lowerChar).filter keepChar))

/-- `scryfall_image` from `process_data.py`.  Python returns "" for a
falsy id, otherwise evaluates `scryfall_id[0], scryfall_id[1]` — which
raises `IndexError` on a one-character id — and builds the sharded URL. -/
def scryfall_image (scryfall_id : Str) : Except Str Str :=
  match scryfall_id with
  | [] => .ok []
  | a :: b :: _ =>
    .ok ("https://cards.scryfall.io/normal/front/".data ++ [a] ++ "/".data
          ++ [b] ++ "/".data ++ scryfall_id ++ ".jpg".data)
  | [_] => .error "IndexError: string index out of range".data

/-- `classify_card` from `process_data.py`: case-insensitive substring
match, first match wins, fallback "other". -/
def classify_card (type_line : Str) : Str :=
  let tl := type_line.map lowerChar
  if containsSub tl "creature".data then "creatures".data
  else if containsSub tl "instant".data then "instants".data
  else if containsSub tl "sorcery".data then "sorceries".data
  else if containsSub tl "planeswalker".data then "planeswalkers".data
  else if containsSub tl "artifact".data then "artifacts".data
  else if containsSub tl "enchantment".data then "enchantments".data
  else if containsSub tl "land".data then "lands".data
  else "other".data

/-- `make_pair_id` from `process_data.py`: slugify both names, put the
lexicographically smaller slug first, join with "--". -/
def make_pair_id (name1 name2 : Str) : Str :=
  let s1 := slugify name1
  let s2 := slugify name2
  if pyLt s2 s1 then s2 ++ "--".data ++ s1 else s1 ++ "--".data ++ s2

/-- Round-half-to-even division `a / b` on naturals (`b > 0`), the exact
integer content of Python's banker's rounding of the true quotient. -/
def rheDiv (a b : ℕ) : ℕ :=
  let q := a / b
  let r := a % b
  if 2 * r < b then q
  else if b < 2 * r then q + 1
  else if q % 2 = 0 then q else q + 1

/-- The guarded percentage formula used at every percentage site of
`process_data.py` (`round(count / denom * 100, 1) if denom > 0 else 0`),
with the one-decimal result represented as its number of tenths. -/
def inclusionPctT (count denom : ℕ) : ℤ :=
  if 0 < denom then (rheDiv (count * 1000) denom : ℤ) else 0

/-- `synergy = round(inclusion_pct - global_pct, 1)` from
`process_data.py`, on tenths: the difference of two exact one-decimal
values is already one-decimal, so the outer rounding is the identity
(proved in `round1_tenths_sub`). -/
def synergyT (inclT globT : ℤ) : ℤ :=
  inclT - globT

/-- Python `round(x, 1)` (round half to even) on an exact rational. -/
def round1 (x : ℚ) : ℚ :=
  let y := x * 10
  let f : ℤ := ⌊y⌋
  let r := y - f
  let n : ℤ :=
    if r < 1/2 then f
    else if 1/2 < r then f + 1
    else if f % 2 = 0 then f else f + 1
  (n : ℚ) / 10

/-- The rational value represented by a number of tenths. -/
def toPct (t : ℤ) : ℚ := (t : ℚ) / 10

/-! ### Insertion-ordered dictionaries -/

/-- A Python dict: insertion-ordered association list. -/
abbrev AList (α : Type) := List (Str × α)

/-- Dict lookup, `d.get(k)`. -/
def lookupA {α : Type} (m : AList α) (k : Str) : Option α :=
  match m with
  | [] => none
  | (k', v) :: t => if k' = k then some v else lookupA t k

/-- Counter read, `d.get(k, 0)` / `defaultdict(int)` read. -/
def lookupD (m : AList ℕ) (k : Str) : ℕ :=
  (lookupA m k).getD 0

/-- `defaultdict(int)`: `d[k] += 1`; a fresh key is appended at the end,
matching Python dict insertion order. -/
def bumpN : AList ℕ → Str → AList ℕ
  | [], k => [(k, 1)]
  | (k', v) :: t, k => if k' = k then (k', v + 1) :: t else (k', v) :: bumpN t k

/-- Nested counter: `d[k1][k2] += 1` on a `defaultdict(lambda: defaultdict(int))`. -/
def bump2 : AList (AList ℕ) → Str → Str → AList (AList ℕ)
  | [], k1, k2 => [(k1, bumpN [] k2)]
  | (k', v) :: t, k1, k2 =>
    if k' = k1 then (k', bumpN v k2) :: t else (k', v) :: bump2 t k1 k2

/-- `defaultdict(list)`: `d[k].append(x)`. -/
def appendA {α : Type} : AList (List α) → Str → α → AList (List α)
  | [], k, x => [(k, [x])]
  | (k', v) :: t, k, x =>
    if k' = k then (k', v ++ [x]) :: t else (k', v) :: appendA t k x

/-- Plain dict assignment `d[k] = v` (overwrite in place, fresh key at
the end). -/
def setA {α : Type} : AList α → Str → α → AList α
  | [], k, x => [(k, x)]
  | (k', v) :: t, k, x =>
    if k' = k then (k', x) :: t else (k', v) :: setA t k x

/-- `defaultdict(set)`: `d[k].add(x)`, the set modelled as an
insertion-ordered duplicate-free list. -/
def addToSet : AList (List Str) → Str → Str → AList (List Str)
  | [], k, x => [(k, [x])]
  | (k', v) :: t, k, x =>
    if k' = k then (k', if x ∈ v then v else v ++ [x]) :: t
    else (k', v) :: addToSet t k x

/-- Python `set(...)` of a name list, as a first-occurrence-ordered
duplicate-free list. -/
def firstDedup (l : List Str) : List Str :=
  go l []
where
  go : List Str → List Str → List Str
    | [], _ => []
    | x :: t, seen => if x ∈ seen then go t seen else x :: go t (x :: seen)

/-! ### Data model -/

/-- The card object carried under the `"card"` key of a commander or
mainboard entry; every field access in the source goes through
`card.get(field, default)`, so all fields are optional. -/
structure CardJson where
  name : Option Str := none
  scryfall_id : Option Str := none
  type_line : Option Str := none
  oracle_text : Option Str := none
  color_identity : List Str := []
  mana_cost : Option Str := none
  cmc : Option ℤ := none
deriving Repr, DecidableEq

/-- One raw deck document as read from `decks/*.json`.  `commanders` and
`mainboard` are JSON objects mapping an entry name to an object whose
`"card"` key (optional) holds the card; `createdDt` carries the result of
`parse_dt(createdAtUtc)` (`none` = missing or unparseable), with instants
measured in days. -/
structure DeckIn where
  publicId : Str := []
  name : Option Str := none
  commanders : List (Str × Option CardJson) := []
  mainboard : List (Str × Option CardJson) := []
  createdAtUtc : Option Str := none
  lastUpdatedAtUtc : Option Str := none
  author : Option Str := none
  createdDt : Option ℤ := none
deriving Repr, DecidableEq

/-- The `deck_info` record built per deck (lines 165-172 of the source),
`_created_dt` included. -/
structure DeckInfo where
  name : Str
  author : Str
  url : Str
  created_at : Str
  updated_at : Str
  createdDt : Option ℤ
deriving Repr, DecidableEq

/-- `card.get("name", cname)` through `cdata.get("card", {})`. -/
def entryName (cname : Str) (o : Option CardJson) : Str :=
  ((o.getD {}).name).getD cname

/-- The resolved commander names of a deck, in commander-entry order
(`cmdr_names` in the source — a list, not a set). -/
def cmdrNames (d : DeckIn) : List Str :=
  d.commanders.map fun p => entryName p.1 p.2

/-- The deck's mainboard card-name set (`deck_card_names`). -/
def deckCardNames (d : DeckIn) : List Str :=
  firstDedup (d.mainboard.map fun p => entryName p.1 p.2)

/-- A deck qualifies for aggregation iff its `commanders` mapping is
non-empty. -/
def qualifies (d : DeckIn) : Bool :=
  !d.commanders.isEmpty

def mkDeckInfo (d : DeckIn) : DeckInfo where
  name := d.name.getD "Unnamed".data
  author := d.author.getD "Unknown".data
  url := "https://moxfield.com/decks/".data ++ d.publicId
  created_at := d.createdAtUtc.getD []
  updated_at := d.lastUpdatedAtUtc.getD []
  createdDt := d.createdDt

/-- All mutable aggregation state of `main` (lines 102-120). -/
structure AggState where
  commander_decks : AList (List DeckInfo) := []
  commander_card_info : AList CardJson := []
  commander_card_counts : AList (AList ℕ) := []
  global_card_counts : AList ℕ := []
  all_card_info : AList CardJson := []
  total_decks : ℕ := 0
  pair_decks : AList (List DeckInfo) := []
  pair_names : AList (Str × Str) := []
  pair_card_counts : AList (AList ℕ) := []
  commander_partners : AList (List Str) := []
  card_commander_counts : AList (AList ℕ) := []
deriving Repr, DecidableEq

/-- One iteration of the deck loop (lines 125-200): skip decks without
commanders, then update every counter.  Updates to distinct dicts commute,
so the per-loop interleavings of the source are grouped per field. -/
def processDeck (st : AggState) (d : DeckIn) : AggState :=
  if d.commanders.isEmpty then st
  else
    let info := mkDeckInfo d
    let names := cmdrNames d
    let cards := deckCardNames d
    { total_decks := st.total_decks + 1
      commander_card_info :=
        d.commanders.foldl (fun m p => setA m (entryName p.1 p.2) (p.2.getD {}))
          st.commander_card_info
      all_card_info :=
        d.commanders.foldl (fun m p => setA m (entryName p.1 p.2) (p.2.getD {}))
          (d.mainboard.foldl (fun m p => setA m (entryName p.1 p.2) (p.2.getD {}))
            st.all_card_info)
      commander_decks :=
        names.foldl (fun m c => appendA m c info) st.commander_decks
      commander_card_counts :=
        names.foldl (fun m c => cards.foldl (fun m2 card => bump2 m2 c card) m)
          st.commander_card_counts
      card_commander_counts :=
        names.foldl
          (fun m c => cards.foldl (fun m2 card => bump2 m2 card (slugify c)) m)
          st.card_commander_counts
      pair_decks :=
        match names with
        | n1 :: n2 :: _ => appendA st.pair_decks (make_pair_id n1 n2) info
        | _ => st.pair_decks
      pair_names :=
        match names with
        | n1 :: n2 :: _ =>
          let p := if pyLt (slugify n2) (slugify n1) then (n2, n1) else (n1, n2)
          setA st.pair_names (make_pair_id n1 n2) p
        | _ => st.pair_names
      commander_partners :=
        match names with
        | n1 :: n2 :: _ =>
          let (m1, m2) := if pyLt (slugify n2) (slugify n1) then (n2, n1) else (n1, n2)
          addToSet (addToSet st.commander_partners m1 m2) m2 m1
        | _ => st.commander_partners
      pair_card_counts :=
        match names with
        | n1 :: n2 :: _ =>
          cards.foldl (fun m card => bump2 m (make_pair_id n1 n2) card)
            st.pair_card_counts
        | _ => st.pair_card_counts
      global_card_counts :=
        cards.foldl (fun m card => bumpN m card) st.global_card_counts }

/-- The whole aggregation pass over the deck files. -/
def processDecks (decks : List DeckIn) : AggState :=
  decks.foldl processDeck {}

/-! ### Statistic builders

Percentage fields (`inclusion_pct`, `synergy`, `total_pct`) hold the
one-decimal value in tenths (`667` for Python's `66.7`). -/

/-- `d["_created_dt"] and d["_created_dt"] >= NOW - timedelta(days=days)`. -/
def inWindow (now days : ℤ) (di : DeckInfo) : Bool :=
  match di.createdDt with
  | some t => decide (now - days ≤ t)
  | none => false

/-- One entry of a commander's `partners` array (lines 228-233). -/
structure PartnerEntry where
  name : Str
  id : Str
  image_uri : Except Str Str
  deck_count : ℕ
deriving Repr, DecidableEq

/-- One record of `commanders.json` (lines 236-252). -/
structure CmdrData where
  id : Str
  name : Str
  scryfall_id : Str
  image_uri : Except Str Str
  color_identity : List Str
  type_line : Str
  mana_cost : Str
  cmc : ℤ
  deck_count : ℕ
  deck_count_90d : ℕ
  deck_count_30d : ℕ
  is_banned : Bool
  banned_type : Option Str
  has_partners : Bool
  partners : List PartnerEntry
deriving Repr, DecidableEq

/-- The body of the commander loop (lines 210-254) for one
`(cmdr_name, decks)` item of `commander_decks`. -/
def mkCmdrData (st : AggState) (now : ℤ) (bannedC bannedD : List Str)
    (cmdr_name : Str) (decks : List DeckInfo) : CmdrData :=
  let card := (lookupA st.commander_card_info cmdr_name).getD {}
  let scryfall_id := card.scryfall_id.getD []
  let is_banned_cmdr := cmdr_name ∈ bannedC
  let is_banned_deck := cmdr_name ∈ bannedD
  let has_partners := (lookupA st.commander_partners cmdr_name).isSome
  let partners :=
    if has_partners then
      List.insertionSort (fun a b => b.deck_count ≤ a.deck_count)
        (((lookupA st.commander_partners cmdr_name).getD []).map fun pname =>
          let pcard := (lookupA st.commander_card_info pname).getD {}
          { name := pname
            id := slugify pname
            image_uri := scryfall_image (pcard.scryfall_id.getD [])
            deck_count :=
              ((lookupA st.pair_decks (make_pair_id cmdr_name pname)).getD []).length
            : PartnerEntry })
    else []
  { id := slugify cmdr_name
    name := cmdr_name
    scryfall_id := scryfall_id
    image_uri := scryfall_image scryfall_id
    color_identity := List.insertionSort (fun a b => pyLt b a = false) card.color_identity
    type_line := card.type_line.getD []
    mana_cost := card.mana_cost.getD []
    cmc := card.cmc.getD 0
    deck_count := decks.length
    deck_count_90d := decks.countP (inWindow now 90)
    deck_count_30d := decks.countP (inWindow now 30)
    is_banned := is_banned_cmdr || is_banned_deck
    banned_type :=
      if is_banned_cmdr then some "commander".data
      else if is_banned_deck then some "deck".data else none
    has_partners := has_partners
    partners := partners }

/-- `commanders_list` before the final sort, in `commander_decks`
insertion order. -/
def commandersPreSort (st : AggState) (now : ℤ) (bannedC bannedD : List Str) :
    List CmdrData :=
  st.commander_decks.map fun p => mkCmdrData st now bannedC bannedD p.1 p.2

/-- `cmdr_by_id` (line 254), keyed by the commander's slug. -/
def cmdrById (st : AggState) (now : ℤ) (bannedC bannedD : List Str) :
    AList CmdrData :=
  (commandersPreSort st now bannedC bannedD).foldl (fun m cd => setA m cd.id cd) []

/-- `commanders_list.sort(key=lambda x: -x["deck_count"])` (line 256). -/
def commandersList (st : AggState) (now : ℤ) (bannedC bannedD : List Str) :
    List CmdrData :=
  List.insertionSort (fun a b => b.deck_count ≤ a.deck_count)
    (commandersPreSort st now bannedC bannedD)

/-- The seven ranked type buckets (line 260). -/
def categories : List Str :=
  ["creatures".data, "instants".data, "sorceries".data, "artifacts".data,
   "enchantments".data, "planeswalkers".data, "lands".data]

/-- One ranked card entry of a top-cards bucket (lines 274-282). -/
structure TopCardEntry where
  name : Str
  slug : Str
  scryfall_id : Str
  image_uri : Except Str Str
  inclusion_pct : ℤ
  deck_count : ℕ
  synergy : ℤ
deriving Repr, DecidableEq

/-- The entry built for one `(card_name, count)` item (lines 265-282). -/
def mkTopCard (st : AggState) (card_name : Str) (count n_decks : ℕ) :
    TopCardEntry :=
  let card := (lookupA st.all_card_info card_name).getD {}
  let ip := inclusionPctT count n_decks
  let gp := inclusionPctT (lookupD st.global_card_counts card_name) st.total_decks
  let sid := card.scryfall_id.getD []
  { name := card_name
    slug := slugify card_name
    scryfall_id := sid
    image_uri := scryfall_image sid
    inclusion_pct := ip
    deck_count := count
    synergy := synergyT ip gp }

/-- `build_top_cards` (lines 262-286): bucket by card type, drop
`other`, sort each bucket by inclusion percentage descending, keep the
top 50. -/
def build_top_cards (st : AggState) (card_counts : AList ℕ) (n_decks : ℕ) :
    AList (List TopCardEntry) :=
  categories.map fun cat =>
    (cat,
      (List.insertionSort (fun a b => b.inclusion_pct ≤ a.inclusion_pct)
        (card_counts.filterMap fun p =>
          let card := (lookupA st.all_card_info p.1).getD {}
          if classify_card (card.type_line.getD []) = cat then
            some (mkTopCard st p.1 p.2 n_decks)
          else none)).take 50)

/-- One record of `cards.json` (lines 373-382). -/
structure CardEntry where
  name : Str
  slug : Str
  scryfall_id : Str
  image_uri : Except Str Str
  type_line : Str
  total_decks : ℕ
  total_pct : ℤ
  color_identity : List Str
deriving Repr, DecidableEq

def mkCardEntry (st : AggState) (card_name : Str) (count : ℕ) : CardEntry :=
  let card := (lookupA st.all_card_info card_name).getD {}
  let sid := card.scryfall_id.getD []
  { name := card_name
    slug := slugify card_name
    scryfall_id := sid
    image_uri := scryfall_image sid
    type_line := card.type_line.getD []
    total_decks := count
    total_pct := inclusionPctT count st.total_decks
    color_identity := List.insertionSort (fun a b => pyLt b a = false) card.color_identity }

/-- One commander row of a per-card detail file (lines 398-405). -/
structure CardCmdrEntry where
  name : Str
  id : Str
  image_uri : Except Str Str
  inclusion_pct : ℤ
  synergy : ℤ
  deck_count : ℕ
deriving Repr, DecidableEq

/-- The `commanders` array of one per-card detail file (lines 388-407):
every tracked commander of the card that resolves in `cmdr_by_id`, with
inclusion percentage and synergy, sorted by deck count descending and
truncated to the top 50. -/
def buildCardCmdrs (st : AggState) (byId : AList CmdrData) (card_name : Str)
    (total_pct : ℤ) : List CardCmdrEntry :=
  (List.insertionSort (fun a b => b.deck_count ≤ a.deck_count)
    (((lookupA st.card_commander_counts card_name).getD []).filterMap fun p =>
      match lookupA byId p.1 with
      | none => none
      | some cd =>
        let ip := inclusionPctT p.2 cd.deck_count
        some { name := cd.name
               id := p.1
               image_uri := cd.image_uri
               inclusion_pct := ip
               synergy := synergyT ip total_pct
               deck_count := p.2
               : CardCmdrEntry })).take 50

/-- One per-card detail file (lines 409-412): the card entry plus its
commanders array. -/
structure CardDetail where
  entry : CardEntry
  commanders : List CardCmdrEntry
deriving Repr, DecidableEq

/-- The per-card detail files, produced exactly for the cards of
`global_card_counts` with `count >= 3` (lines 367, 386-414), in
`global_card_counts` insertion order. -/
def cardDetails (st : AggState) (byId : AList CmdrData) : List CardDetail :=
  st.global_card_counts.filterMap fun p =>
    if 3 ≤ p.2 then
      some { entry := mkCardEntry st p.1 p.2
             commanders :=
               buildCardCmdrs st byId p.1 (inclusionPctT p.2 st.total_decks) }
    else none

/-- `cards_list` sorted by total deck count descending (line 416). -/
def cardsList (st : AggState) : List CardEntry :=
  List.insertionSort (fun a b => b.total_decks ≤ a.total_decks)
    (st.global_card_counts.map fun p => mkCardEntry st p.1 p.2)

/-- One entry of `top_20_recent` (line 442): the commander record merged
with its 180-day window count. -/
structure RecentEntry where
  base : CmdrData
  deck_count_180d : ℕ
deriving Repr, DecidableEq

/-- `top_recent` (lines 437-444): commanders with at least one deck in
the 180-day window, sorted by that count descending, truncated to 20. -/
def topRecent (st : AggState) (now : ℤ) (bannedC bannedD : List Str) :
    List RecentEntry :=
  (List.insertionSort (fun a b => b.deck_count_180d ≤ a.deck_count_180d)
    ((commandersList st now bannedC bannedD).filterMap fun cd =>
      let rc := ((lookupA st.commander_decks cd.name).getD []).countP
        (inWindow now 180)
      if 0 < rc then some { base := cd, deck_count_180d := rc } else none)).take 20

/-- Occurrence count of a name in a name list. -/
def occCount (x : Str) (l : List Str) : ℕ :=
  l.countP (fun y => decide (y = x))

/-- The number of qualifying decks in which `c` is one of the resolved
commander names (each deck counted at most once). -/
def numDecksWithCommander (decks : List DeckIn) (c : Str) : ℕ :=
  decks.countP fun d => qualifies d && decide (c ∈ cmdrNames d)

/-- The number of qualifying decks whose mainboard card-name set contains
`c` (each deck counted at most once). -/
def globalDeckCount (decks : List DeckIn) (c : Str) : ℕ :=
  decks.countP fun d => qualifies d && decide (c ∈ deckCardNames d)

/-- The lifetime deck list length recorded for a commander name. -/
def cmdrDeckCount (st : AggState) (c : Str) : ℕ :=
  ((lookupA st.commander_decks c).getD []).length

/-! ### Concrete corpora used as test inputs -/

/-- A commander or mainboard entry whose card has just a name. -/
def mkCard (n : Str) : Option CardJson := some { name := some n }

/-- Spec §8 example deck 1: Atraxa with Sol Ring and Swamp. -/
def deckEx1 : DeckIn :=
  { publicId := "d1".data
    commanders := [("Atraxa".data, mkCard "Atraxa".data)]
    mainboard :=
      [("Sol Ring".data,
         some { name := some "Sol Ring".data, type_line := some "Artifact".data }),
       ("Swamp".data,
         some { name := some "Swamp".data, type_line := some "Basic Land".data })] }

/-- Spec §8 example deck 2: Atraxa with Sol Ring. -/
def deckEx2 : DeckIn :=
  { publicId := "d2".data
    commanders := [("Atraxa".data, mkCard "Atraxa".data)]
    mainboard :=
      [("Sol Ring".data,
         some { name := some "Sol Ring".data, type_line := some "Artifact".data })] }

/-- Spec §8 example deck 3: Korvold with Swamp only. -/
def deckEx3 : DeckIn :=
  { publicId := "d3".data
    commanders := [("Korvold".data, mkCard "Korvold".data)]
    mainboard :=
      [("Swamp".data,
         some { name := some "Swamp".data, type_line := some "Basic Land".data })] }

/-- The spec §8 three-deck example corpus. -/
def corpusEx : List DeckIn := [deckEx1, deckEx2, deckEx3]

def stEx : AggState := processDecks corpusEx

/-- Partner-pair example deck: commanders listed Thrasios then Tymna. -/
def deckPair1 : DeckIn :=
  { publicId := "d4".data
    commanders := [("Thrasios".data, mkCard "Thrasios".data),
                   ("Tymna".data, mkCard "Tymna".data)] }

/-- Partner-pair example deck: same commanders in reversed order. -/
def deckPair2 : DeckIn :=
  { publicId := "d5".data
    commanders := [("Tymna".data, mkCard "Tymna".data),
                   ("Thrasios".data, mkCard "Thrasios".data)] }

def stPair : AggState := processDecks [deckPair1, deckPair2]

/-- A deck whose `commanders` mapping has two distinct keys resolving to
the same card name. -/
def deckDup : DeckIn :=
  { publicId := "dd".data
    commanders := [("k1".data, mkCard "X".data), ("k2".data, mkCard "X".data)] }

/-- Distinct synthetic commander names `c0`, `c1`, ... -/
def natName (i : ℕ) : Str := 'c' :: Nat.toDigits 10 i

/-- Deck number `i` of the 51-commander corpus: commander `ci`, mainboard
`sol`. -/
def deckNth (i : ℕ) : DeckIn :=
  { publicId := natName i
    commanders := [("k".data, mkCard (natName i))]
    mainboard := [("sol".data, mkCard "sol".data)] }

/-- 51 decks with 51 distinct commanders, all containing the card `sol`. -/
def corpus51 : List DeckIn := (List.range 51).map deckNth

def st51 : AggState := processDecks corpus51

def byId51 : AList CmdrData := cmdrById st51 0 [] []

/-- Timestamped corpus: commander `A` with one deck in the 30-day window,
one in the 90-day window only, and one with no parseable timestamp. -/
def deckT1 : DeckIn :=
  { publicId := "t1".data
    commanders := [("A".data, mkCard "A".data)]
    createdAtUtc := some "2026-01-01T00:00:00Z".data
    createdDt := some 95 }

def deckT2 : DeckIn :=
  { publicId := "t2".data
    commanders := [("A".data, mkCard "A".data)]
    createdAtUtc := some "2025-11-01T00:00:00Z".data
    createdDt := some 40 }

def deckT3 : DeckIn :=
  { publicId := "t3".data
    commanders := [("A".data, mkCard "A".data)]
    createdAtUtc := some "not-a-date".data
    createdDt := none }

def stT : AggState := processDecks [deckT1, deckT2, deckT3]

/-- The commander record the pipeline builds for `A` at `now = 100`. -/
def cdT : CmdrData :=
  mkCmdrData stT 100 [] [] "A".data ((lookupA stT.commander_decks "A".data).getD [])

/-- Three partner decks for Thrasios: two with Tymna, one with Vial
Smasher, so Thrasios gets partners with counts 2 and 1. -/
def deckP3 : DeckIn :=
  { publicId := "d6".data
    commanders := [("Thrasios".data, mkCard "Thrasios".data),
                   ("Vial Smasher".data, mkCard "Vial Smasher".data)] }

def stP : AggState := processDecks [deckPair1, deckPair2, deckP3]

/-- Three decks with three distinct commanders all running `sol`. -/
def corpus3sol : List DeckIn := (List.range 3).map deckNth

def st3sol : AggState := processDecks corpus3sol

def byId3sol : AList CmdrData := cmdrById st3sol 0 [] []

/-- Two decks with two distinct commanders both running `sol`. -/
def corpus2sol : List DeckIn := (List.range 2).map deckNth

/-- The detail record the pipeline emits for `sol` over `corpus3sol`. -/
def dtl3sol : CardDetail :=
  { entry := mkCardEntry st3sol "sol".data 3
    commanders :=
      buildCardCmdrs st3sol byId3sol "sol".data
        (inclusionPctT 3 st3sol.total_decks) }

/-- The commander row for `c0` inside `dtl3sol`. -/
def e3sol : CardCmdrEntry :=
  { name := natName 0
    id := slugify (natName 0)
    image_uri := scryfall_image []
    inclusion_pct := inclusionPctT 1 1
    synergy := synergyT (inclusionPctT 1 1) (inclusionPctT 3 3)
    deck_count := 1 }

/-- The `build_top_cards` entry for Sol Ring in Atraxa scope over the
spec example corpus. -/
def solEntryEx : TopCardEntry := mkTopCard stEx "Sol Ring".data 2 2

/-- The commander record built for Thrasios over the three partner
decks. -/
def cdThr : CmdrData :=
  mkCmdrData stP 0 [] [] "Thrasios".data
    ((lookupA stP.commander_decks "Thrasios".data).getD [])

/-! ### Sanity checks on the identity utilities -/

example : slugify "Atraxa, Praetors' Voice".data = "atraxa-praetors-voice".data := by decide
example : slugify "Fire // Ice".data = "fire".data := by decide
example : slugify "A  B".data = "a-b".data := by decide
example : make_pair_id "Tymna".data "Thrasios".data = "thrasios--tymna".data := by decide
example : scryfall_image "".data = .ok "".data := by decide
example : scryfall_image "ab12".data =
    .ok "https://cards.scryfall.io/normal/front/a/b/ab12.jpg".data := by decide
example : classify_card "Legendary Creature - Elf".data = "creatures".data := by decide
example : inclusionPctT 2 3 = 667 := by decide
example : inclusionPctT 7 7 = 1000 := by decide
example : inclusionPctT 5 0 = 0 := by decide

/-! ### Dictionary lemmas -/

theorem lookupA_ne_none_of_mem_keys {α : Type} {m : AList α} {a : Str}
    (hm : a ∈ m.map Prod.fst) : lookupA m a ≠ none := by
  induction m with
  | nil => cases hm
  | cons q s ih =>
    obtain ⟨q1, q2⟩ := q
    rcases List.mem_cons.mp hm with hq | hq
    · cases hq
      simp [lookupA]
    · by_cases hq1 : q1 = a
      · simp [lookupA, hq1]
      · simp only [lookupA, if_neg hq1]
        exact ih hq

theorem lookupA_eq_of_mem {α : Type} {m : AList α} {k : Str} {v : α}
    (hnd : (m.map Prod.fst).Nodup) (h : (k, v) ∈ m) : lookupA m k = some v := by
  induction m with
  | nil => cases h
  | cons p t ih =>
    obtain ⟨k', v'⟩ := p
    simp only [List.map_cons, List.nodup_cons] at hnd
    rcases List.mem_cons.mp h with h | h
    · cases h
      simp [lookupA]
    · have hk : k' ≠ k := by
        rintro rfl
        exact hnd.1 (List.mem_map.mpr ⟨(k', v), h, rfl⟩)
      simp only [lookupA, if_neg hk]
      exact ih hnd.2 h

theorem mem_of_lookupA_eq {α : Type} {m : AList α} {k : Str} {v : α}
    (h : lookupA m k = some v) : (k, v) ∈ m := by
  induction m with
  | nil => simp [lookupA] at h
  | cons p t ih =>
    obtain ⟨k', v'⟩ := p
    by_cases hk : k' = k
    · subst hk
      have hv : lookupA ((k', v') :: t) k' = some v' := by simp [lookupA]
      rw [hv] at h
      cases h
      exact List.mem_cons_self _ _
    · simp only [lookupA, if_neg hk] at h
      exact List.mem_cons_of_mem _ (ih h)

theorem lookupD_bumpN (m : AList ℕ) (k k' : Str) :
    lookupD (bumpN m k) k' = lookupD m k' + (if k' = k then 1 else 0) := by
  induction m with
  | nil =>
    by_cases h : k' = k
    · subst h
      simp [bumpN, lookupD, lookupA]
    · simp [bumpN, lookupD, lookupA, h, Ne.symm h]
  | cons p t ih =>
    obtain ⟨k1, v1⟩ := p
    by_cases h1 : k1 = k
    · subst h1
      by_cases h2 : k' = k1
      · subst h2
        simp [bumpN, lookupD, lookupA]
      · simp [bumpN, lookupD, lookupA, h2, Ne.symm h2]
    · by_cases h2 : k1 = k'
      · subst h2
        simp [bumpN, lookupD, lookupA, if_neg h1, h1]
      · simp only [bumpN, if_neg h1, lookupD, lookupA, if_neg h2]
        exact ih

theorem keys_bumpN (m : AList ℕ) (k : Str) :
    (bumpN m k).map Prod.fst = m.map Prod.fst ∨
      (bumpN m k).map Prod.fst = m.map Prod.fst ++ [k] ∧ lookupA m k = none := by
  induction m with
  | nil => right; simp [bumpN, lookupA]
  | cons p t ih =>
    obtain ⟨k1, v1⟩ := p
    by_cases h1 : k1 = k
    · left; simp [bumpN, h1]
    · rcases ih with h | ⟨h, hl⟩
      · left; simp [bumpN, if_neg h1, h]
      · right
        constructor
        · simp [bumpN, if_neg h1, h]
        · simp [lookupA, if_neg h1, hl]

theorem keysNodup_bumpN {m : AList ℕ} (k : Str)
    (h : (m.map Prod.fst).Nodup) : ((bumpN m k).map Prod.fst).Nodup := by
  rcases keys_bumpN m k with hk | ⟨hk, hl⟩
  · rw [hk]; exact h
  · rw [hk]
    refine List.Nodup.append h (List.nodup_singleton k) fun a ha hb => ?_
    obtain rfl := List.mem_singleton.mp hb
    exact lookupA_ne_none_of_mem_keys ha hl

theorem occCount_cons (x c : Str) (t : List Str) :
    occCount x (c :: t) = occCount x t + (if c = x then 1 else 0) := by
  simp only [occCount, List.countP_cons]
  by_cases h : c = x
  · simp [h]
  · simp [h]

theorem occCount_eq_zero_of_not_mem {x : Str} {l : List Str} (h : x ∉ l) :
    occCount x l = 0 := by
  induction l with
  | nil => rfl
  | cons c t ih =>
    have hcx : ¬ c = x := fun hc => h (hc ▸ List.mem_cons_self c t)
    rw [occCount_cons, ih (fun hc => h (List.mem_cons_of_mem _ hc)), if_neg hcx]

theorem occCount_nodup {x : Str} {l : List Str} (hnd : l.Nodup) :
    occCount x l = if x ∈ l then 1 else 0 := by
  induction l with
  | nil => simp [occCount]
  | cons c t ih =>
    rcases List.nodup_cons.mp hnd with ⟨hc, ht⟩
    rw [occCount_cons, ih ht]
    by_cases hx : x = c
    · subst hx
      simp [occCount, hc]
    · by_cases hxt : x ∈ t
      · simp [hxt, hx, Ne.symm hx]
      · simp [hxt, hx, Ne.symm hx]

theorem lookupD_foldl_bumpN (l : List Str) (m : AList ℕ) (k : Str) :
    lookupD (l.foldl (fun m2 c => bumpN m2 c) m) k = lookupD m k + occCount k l := by
  induction l generalizing m with
  | nil => simp [occCount]
  | cons c t ih =>
    simp only [List.foldl_cons, ih, lookupD_bumpN, occCount_cons]
    by_cases h : k = c
    · subst h
      simp only [if_pos rfl]
      omega
    · rw [if_neg h, if_neg (fun hc => h hc.symm)]
      omega

theorem keysNodup_foldl_bumpN (l : List Str) (m : AList ℕ)
    (h : (m.map Prod.fst).Nodup) :
    ((l.foldl (fun m2 c => bumpN m2 c) m).map Prod.fst).Nodup := by
  induction l generalizing m with
  | nil => exact h
  | cons c t ih => exact ih _ (keysNodup_bumpN c h)

theorem lookupLen_appendA {α : Type} (m : AList (List α)) (k k' : Str) (x : α) :
    ((lookupA (appendA m k x) k').getD []).length =
      ((lookupA m k').getD []).length + (if k' = k then 1 else 0) := by
  induction m with
  | nil =>
    by_cases h : k' = k
    · subst h
      simp [appendA, lookupA]
    · simp [appendA, lookupA, h, Ne.symm h]
  | cons p t ih =>
    obtain ⟨k1, v1⟩ := p
    by_cases h1 : k1 = k
    · subst h1
      by_cases h2 : k' = k1
      · subst h2
        simp [appendA, lookupA]
      · simp [appendA, lookupA, h2, Ne.symm h2]
    · by_cases h2 : k1 = k'
      · subst h2
        simp [appendA, lookupA, if_neg h1, h1]
      · simp only [appendA, if_neg h1, lookupA, if_neg h2]
        exact ih

theorem keys_appendA {α : Type} (m : AList (List α)) (k : Str) (x : α) :
    (appendA m k x).map Prod.fst = m.map Prod.fst ∨
      (appendA m k x).map Prod.fst = m.map Prod.fst ++ [k] ∧ lookupA m k = none := by
  induction m with
  | nil => right; simp [appendA, lookupA]
  | cons p t ih =>
    obtain ⟨k1, v1⟩ := p
    by_cases h1 : k1 = k
    · left; simp [appendA, h1]
    · rcases ih with h | ⟨h, hl⟩
      · left; simp [appendA, if_neg h1, h]
      · right
        constructor
        · simp [appendA, if_neg h1, h]
        · simp [lookupA, if_neg h1, hl]

theorem keysNodup_appendA {α : Type} {m : AList (List α)} (k : Str) (x : α)
    (h : (m.map Prod.fst).Nodup) : ((appendA m k x).map Prod.fst).Nodup := by
  rcases keys_appendA m k x with hk | ⟨hk, hl⟩
  · rw [hk]; exact h
  · rw [hk]
    refine List.Nodup.append h (List.nodup_singleton k) fun a ha hb => ?_
    obtain rfl := List.mem_singleton.mp hb
    exact lookupA_ne_none_of_mem_keys ha hl

theorem lookupLen_foldl_appendA {α : Type} (l : List Str) (m : AList (List α))
    (x : α) (k : Str) :
    ((lookupA (l.foldl (fun m2 c => appendA m2 c x) m) k).getD []).length =
      ((lookupA m k).getD []).length + occCount k l := by
  induction l generalizing m with
  | nil => simp [occCount]
  | cons c t ih =>
    simp only [List.foldl_cons, ih, lookupLen_appendA, occCount_cons]
    by_cases h : k = c
    · subst h
      simp only [if_pos rfl]
      omega
    · rw [if_neg h, if_neg (fun hc => h hc.symm)]
      omega

theorem keysNodup_foldl_appendA {α : Type} (l : List Str) (m : AList (List α))
    (x : α) (h : (m.map Prod.fst).Nodup) :
    ((l.foldl (fun m2 c => appendA m2 c x) m).map Prod.fst).Nodup := by
  induction l generalizing m with
  | nil => exact h
  | cons c t ih => exact ih _ (keysNodup_appendA c x h)

/-! ### `firstDedup` lemmas -/

theorem mem_firstDedup_go (l seen : List Str) (x : Str) :
    x ∈ firstDedup.go l seen ↔ x ∈ l ∧ x ∉ seen := by
  induction l generalizing seen with
  | nil => simp [firstDedup.go]
  | cons a t ih =>
    by_cases ha : a ∈ seen
    · rw [firstDedup.go, if_pos ha, ih]
      constructor
      · rintro ⟨hx, hs⟩
        exact ⟨List.mem_cons_of_mem _ hx, hs⟩
      · rintro ⟨hx, hs⟩
        rcases List.mem_cons.mp hx with rfl | hx
        · exact absurd ha hs
        · exact ⟨hx, hs⟩
    · rw [firstDedup.go, if_neg ha]
      constructor
      · intro hx
        rcases List.mem_cons.mp hx with rfl | hx
        · exact ⟨List.mem_cons_self _ _, ha⟩
        · rcases (ih _).mp hx with ⟨h1, h2⟩
          refine ⟨List.mem_cons_of_mem _ h1, fun hs => h2 ?_⟩
          exact List.mem_cons_of_mem _ hs
      · rintro ⟨hx, hs⟩
        rcases List.mem_cons.mp hx with rfl | hx
        · exact List.mem_cons_self _ _
        · by_cases hxa : x = a
          · subst hxa; exact List.mem_cons_self _ _
          · refine List.mem_cons_of_mem _ ((ih _).mpr ⟨hx, ?_⟩)
            intro hh
            rcases List.mem_cons.mp hh with hh | hh
            · exact hxa hh
            · exact hs hh

theorem mem_firstDedup (l : List Str) (x : Str) :
    x ∈ firstDedup l ↔ x ∈ l := by
  rw [firstDedup, mem_firstDedup_go]
  simp

theorem nodup_firstDedup_go (l seen : List Str) :
    (firstDedup.go l seen).Nodup := by
  induction l generalizing seen with
  | nil => exact List.nodup_nil
  | cons a t ih =>
    by_cases ha : a ∈ seen
    · rw [firstDedup.go, if_pos ha]; exact ih _
    · rw [firstDedup.go, if_neg ha]
      refine List.nodup_cons.mpr ⟨?_, ih _⟩
      intro hmem
      exact ((mem_firstDedup_go _ _ _).mp hmem).2 (List.mem_cons_self _ _)

theorem nodup_firstDedup (l : List Str) : (firstDedup l).Nodup :=
  nodup_firstDedup_go l []

theorem occCount_firstDedup (l : List Str) (x : Str) :
    occCount x (firstDedup l) = if x ∈ l then 1 else 0 := by
  rw [occCount_nodup (nodup_firstDedup l)]
  by_cases h : x ∈ l
  · rw [if_pos ((mem_firstDedup l x).mpr h), if_pos h]
  · rw [if_neg (fun hc => h ((mem_firstDedup l x).mp hc)), if_neg h]

/-! ### Aggregation-pass lemmas -/

theorem global_card_counts_processDeck (st : AggState) (d : DeckIn) (c : Str) :
    lookupD (processDeck st d).global_card_counts c =
      lookupD st.global_card_counts c +
        (if qualifies d ∧ c ∈ deckCardNames d then 1 else 0) := by
  by_cases h : d.commanders.isEmpty
  · simp [processDeck, h, qualifies]
  · simp only [processDeck, if_neg h, lookupD_foldl_bumpN]
    rw [deckCardNames, occCount_firstDedup]
    by_cases hm : c ∈ deckCardNames d
    · rw [deckCardNames, mem_firstDedup] at hm
      simp [hm, qualifies, h, deckCardNames, mem_firstDedup]
    · rw [deckCardNames, mem_firstDedup] at hm
      simp [hm, qualifies, h, deckCardNames, mem_firstDedup]

theorem global_card_counts_foldl (decks : List DeckIn) (st : AggState) (c : Str) :
    lookupD (decks.foldl processDeck st).global_card_counts c =
      lookupD st.global_card_counts c + globalDeckCount decks c := by
  induction decks generalizing st with
  | nil => simp [globalDeckCount]
  | cons d t ih =>
    simp only [List.foldl_cons, ih, global_card_counts_processDeck,
      globalDeckCount, List.countP_cons]
    have heq : (if qualifies d ∧ c ∈ deckCardNames d then 1 else 0) =
        (if (qualifies d && decide (c ∈ deckCardNames d)) = true then 1 else 0) := by
      by_cases h1 : qualifies d
      · by_cases h2 : c ∈ deckCardNames d
        · simp [h1, h2]
        · simp [h1, h2]
      · simp [h1]
    rw [heq]
    omega

theorem global_card_counts_spec (decks : List DeckIn) (c : Str) :
    lookupD (processDecks decks).global_card_counts c = globalDeckCount decks c := by
  rw [processDecks, global_card_counts_foldl]
  simp [lookupD, lookupA]

theorem keysNodup_global_card_counts_processDeck (st : AggState)
    (h : (st.global_card_counts.map Prod.fst).Nodup) (d : DeckIn) :
    (((processDeck st d).global_card_counts).map Prod.fst).Nodup := by
  by_cases he : d.commanders.isEmpty
  · simpa [processDeck, he] using h
  · simp only [processDeck, if_neg he]
    exact keysNodup_foldl_bumpN _ _ h

theorem keysNodup_global_card_counts (decks : List DeckIn) :
    (((processDecks decks).global_card_counts).map Prod.fst).Nodup := by
  rw [processDecks]
  have : ∀ st : AggState, (st.global_card_counts.map Prod.fst).Nodup →
      (((decks.foldl processDeck st).global_card_counts).map Prod.fst).Nodup := by
    induction decks with
    | nil => exact fun st h => h
    | cons d t ih =>
      intro st h
      exact ih _ (keysNodup_global_card_counts_processDeck st h d)
  exact this {} List.nodup_nil

theorem commander_decks_processDeck (st : AggState) (d : DeckIn) (c : Str) :
    cmdrDeckCount (processDeck st d) c =
      cmdrDeckCount st c + (if qualifies d then occCount c (cmdrNames d) else 0) := by
  by_cases h : d.commanders.isEmpty
  · simp [processDeck, h, qualifies, cmdrDeckCount]
  · simp only [processDeck, if_neg h, cmdrDeckCount]
    rw [lookupLen_foldl_appendA]
    simp [qualifies, h]

theorem commander_decks_foldl (decks : List DeckIn) (st : AggState) (c : Str) :
    cmdrDeckCount (decks.foldl processDeck st) c =
      cmdrDeckCount st c +
        (decks.map fun d => if qualifies d then occCount c (cmdrNames d) else 0).sum := by
  induction decks generalizing st with
  | nil => simp
  | cons d t ih =>
    simp only [List.foldl_cons, ih, commander_decks_processDeck, List.map_cons,
      List.sum_cons]
    omega

theorem commander_decks_spec (decks : List DeckIn) (c : Str) :
    cmdrDeckCount (processDecks decks) c =
      (decks.map fun d => if qualifies d then occCount c (cmdrNames d) else 0).sum := by
  rw [processDecks, commander_decks_foldl]
  simp [cmdrDeckCount, lookupA]

theorem sum_map_ite_eq_countP {α : Type} (l : List α) (f : α → ℕ) (p : α → Bool)
    (h : ∀ x ∈ l, f x = if p x then 1 else 0) :
    (l.map f).sum = l.countP p := by
  induction l with
  | nil => simp
  | cons a t ih =>
    simp only [List.map_cons, List.sum_cons, List.countP_cons,
      ih fun x hx => h x (List.mem_cons_of_mem _ hx), h a (List.mem_cons_self _ _)]
    by_cases hp : p a
    · simp [hp]
      omega
    · simp [hp]

theorem keysNodup_commander_decks_processDeck (st : AggState)
    (h : (st.commander_decks.map Prod.fst).Nodup) (d : DeckIn) :
    (((processDeck st d).commander_decks).map Prod.fst).Nodup := by
  by_cases he : d.commanders.isEmpty
  · simpa [processDeck, he] using h
  · simp only [processDeck, if_neg he]
    exact keysNodup_foldl_appendA _ _ _ h

theorem keysNodup_commander_decks (decks : List DeckIn) :
    (((processDecks decks).commander_decks).map Prod.fst).Nodup := by
  rw [processDecks]
  have : ∀ st : AggState, (st.commander_decks.map Prod.fst).Nodup →
      (((decks.foldl processDeck st).commander_decks).map Prod.fst).Nodup := by
    induction decks with
    | nil => exact fun st h => h
    | cons d t ih =>
      intro st h
      exact ih _ (keysNodup_commander_decks_processDeck st h d)
  exact this {} List.nodup_nil

/-! ### Lexicographic-order lemmas for `pyLt` -/

theorem pyLt_asymm : ∀ (a b : Str), pyLt a b = true → pyLt b a = false
  | [], [] => by simp [pyLt]
  | [], _ :: _ => by simp [pyLt]
  | _ :: _, [] => by simp [pyLt]
  | a :: s, b :: t => by
    simp only [pyLt]
    intro h
    by_cases hab : a < b
    · rw [if_neg (lt_asymm hab), if_pos hab]
    · by_cases hba : b < a
      · rw [if_neg hab, if_pos hba] at h
        cases h
      · rw [if_neg hab, if_neg hba] at h
        rw [if_neg hba, if_neg hab]
        exact pyLt_asymm s t h

theorem pyLt_eq_of_not_lt : ∀ (a b : Str), pyLt a b = false → pyLt b a = false → a = b
  | [], [] => fun _ _ => rfl
  | [], _ :: _ => by simp [pyLt]
  | _ :: _, [] => by simp [pyLt]
  | a :: s, b :: t => by
    simp only [pyLt]
    intro h1 h2
    by_cases hab : a < b
    · rw [if_pos hab] at h1
      cases h1
    · by_cases hba : b < a
      · rw [if_pos hba] at h2
        cases h2
      · rw [if_neg hab, if_neg hba] at h1
        rw [if_neg hba, if_neg hab] at h2
        have hc : a = b := le_antisymm (le_of_not_lt hba) (le_of_not_lt hab)
        rw [hc, pyLt_eq_of_not_lt s t h1 h2]

theorem make_pair_id_symm (n1 n2 : Str) : make_pair_id n1 n2 = make_pair_id n2 n1 := by
  unfold make_pair_id
  by_cases h1 : pyLt (slugify n2) (slugify n1) = true
  · rw [if_pos h1, if_neg]
    rw [pyLt_asymm _ _ h1]
    simp
  · have h1' : pyLt (slugify n2) (slugify n1) = false := by
      cases h : pyLt (slugify n2) (slugify n1)
      · rfl
      · exact absurd h h1
    by_cases h2 : pyLt (slugify n1) (slugify n2) = true
    · rw [if_neg h1, if_pos h2]
    · have h2' : pyLt (slugify n1) (slugify n2) = false := by
        cases h : pyLt (slugify n1) (slugify n2)
        · rfl
        · exact absurd h h2
      have he : slugify n2 = slugify n1 := pyLt_eq_of_not_lt _ _ h1' h2'
      rw [if_neg h1, if_neg h2, he]

/-! ### Rounding bridge: integer tenths versus `round1` on ℚ -/

theorem round1_tenths_sub (i g : ℤ) :
    round1 ((i : ℚ) / 10 - (g : ℚ) / 10) = ((i - g : ℤ) : ℚ) / 10 := by
  have hy : ((i : ℚ) / 10 - (g : ℚ) / 10) * 10 = ((i - g : ℤ) : ℚ) := by
    push_cast
    ring
  simp only [round1, hy, Int.floor_intCast]
  simp

theorem floor_natCast_div (a b : ℕ) (hb : 0 < b) :
    ⌊(a : ℚ) / (b : ℚ)⌋ = ((a / b : ℕ) : ℤ) := by
  have hbq : (0 : ℚ) < b := by exact_mod_cast hb
  rw [Int.floor_eq_iff]
  constructor
  · rw [le_div_iff₀ hbq]
    exact_mod_cast Nat.div_mul_le_self a b
  · rw [div_lt_iff₀ hbq]
    have h1 : a < b * (a / b) + b := by
      have := Nat.div_add_mod a b
      have h2 : a % b < b := Nat.mod_lt a hb
      omega
    have : a < (a / b + 1) * b := by
      calc a < b * (a / b) + b := h1
        _ = (a / b + 1) * b := by ring
    exact_mod_cast this

theorem frac_natCast_div (a b : ℕ) (hb : 0 < b) :
    (a : ℚ) / (b : ℚ) - ((a / b : ℕ) : ℚ) = ((a % b : ℕ) : ℚ) / (b : ℚ) := by
  have hbq : (b : ℚ) ≠ 0 := by positivity
  have hdm : ((b * (a / b) + a % b : ℕ) : ℚ) = (a : ℚ) := by
    exact_mod_cast congrArg (Nat.cast : ℕ → ℚ) (Nat.div_add_mod a b)
  push_cast at hdm
  field_simp
  linarith [hdm]

theorem toPct_inclusionPctT (c n : ℕ) (h : 0 < n) :
    toPct (inclusionPctT c n) = round1 ((c : ℚ) / (n : ℚ) * 100) := by
  have hnq : (0 : ℚ) < n := by exact_mod_cast h
  have hy : (c : ℚ) / (n : ℚ) * 100 * 10 = ((c * 1000 : ℕ) : ℚ) / (n : ℚ) := by
    push_cast
    field_simp
    ring
  have hlt : (((c * 1000) % n : ℕ) : ℚ) / (n : ℚ) < 1/2 ↔ 2 * ((c * 1000) % n) < n := by
    rw [div_lt_iff₀ hnq]
    constructor
    · intro hh
      have h2 : ((2 * ((c * 1000) % n) : ℕ) : ℚ) < (n : ℚ) := by push_cast; linarith
      exact_mod_cast h2
    · intro hh
      have h2 : ((2 * ((c * 1000) % n) : ℕ) : ℚ) < (n : ℚ) := by exact_mod_cast hh
      push_cast at h2
      linarith
  have hgt : (1:ℚ)/2 < (((c * 1000) % n : ℕ) : ℚ) / (n : ℚ) ↔ n < 2 * ((c * 1000) % n) := by
    rw [lt_div_iff₀ hnq]
    constructor
    · intro hh
      have h2 : ((n : ℕ) : ℚ) < ((2 * ((c * 1000) % n) : ℕ) : ℚ) := by push_cast; linarith
      exact_mod_cast h2
    · intro hh
      have h2 : ((n : ℕ) : ℚ) < ((2 * ((c * 1000) % n) : ℕ) : ℚ) := by exact_mod_cast hh
      push_cast at h2
      linarith
  have hpar : (((c * 1000) / n : ℕ) : ℤ) % 2 = 0 ↔ ((c * 1000) / n) % 2 = 0 := by
    constructor
    · intro hh
      exact_mod_cast hh
    · intro hh
      exact_mod_cast hh
  simp only [round1, toPct, inclusionPctT, rheDiv, if_pos h, hy,
    floor_natCast_div _ _ h, Int.cast_natCast, frac_natCast_div _ _ h]
  by_cases h1 : 2 * ((c * 1000) % n) < n
  · rw [if_pos h1, if_pos (hlt.mpr h1)]
    rw [Int.cast_natCast]
  · rw [if_neg h1, if_neg (fun hc => h1 (hlt.mp hc))]
    by_cases h2 : n < 2 * ((c * 1000) % n)
    · rw [if_pos h2, if_pos (hgt.mpr h2)]
      simp only [Int.cast_add, Int.cast_one, Int.cast_natCast, Nat.cast_add,
        Nat.cast_one]
    · rw [if_neg h2, if_neg (fun hc => h2 (hgt.mp hc))]
      by_cases h3 : ((c * 1000) / n) % 2 = 0
      · rw [if_pos (hpar.mpr h3), if_pos h3]
        rw [Int.cast_natCast]
      · rw [if_neg (fun hc => h3 (hpar.mp hc)), if_neg h3]
        simp only [Int.cast_add, Int.cast_one, Int.cast_natCast, Nat.cast_add,
        Nat.cast_one]

/-! ### Builder membership lemmas -/

theorem commandersList_mem {st : AggState} {now : ℤ} {bC bD : List Str}
    {cd : CmdrData} (h : cd ∈ commandersList st now bC bD) :
    ∃ p ∈ st.commander_decks, cd = mkCmdrData st now bC bD p.1 p.2 := by
  rw [commandersList, List.mem_insertionSort, commandersPreSort, List.mem_map] at h
  obtain ⟨p, hp, heq⟩ := h
  exact ⟨p, hp, heq.symm⟩

theorem build_top_cards_mem {st : AggState} {cc : AList ℕ} {n : ℕ} {cat : Str}
    {l : List TopCardEntry} {e : TopCardEntry}
    (hl : (cat, l) ∈ build_top_cards st cc n) (he : e ∈ l) :
    ∃ p ∈ cc, e = mkTopCard st p.1 p.2 n := by
  rw [build_top_cards, List.mem_map] at hl
  obtain ⟨cat', _, heq⟩ := hl
  injection heq with h1 h2
  subst h1
  subst h2
  have he2 := List.mem_filterMap.mp
    ((List.mem_insertionSort _).mp (List.mem_of_mem_take he))
  obtain ⟨p, hp, hf⟩ := he2
  refine ⟨p, hp, ?_⟩
  by_cases hc : classify_card (((lookupA st.all_card_info p.1).getD {}).type_line.getD []) = cat'
  · simp only [if_pos hc, Option.some.injEq] at hf
    exact hf.symm
  · simp only [if_neg hc] at hf
    cases hf

theorem buildCardCmdrs_mem {st : AggState} {byId : AList CmdrData}
    {cname : Str} {tpct : ℤ} {e : CardCmdrEntry}
    (he : e ∈ buildCardCmdrs st byId cname tpct) :
    ∃ p ∈ (lookupA st.card_commander_counts cname).getD [], ∃ cd : CmdrData,
      lookupA byId p.1 = some cd ∧
      e = { name := cd.name
            id := p.1
            image_uri := cd.image_uri
            inclusion_pct := inclusionPctT p.2 cd.deck_count
            synergy := synergyT (inclusionPctT p.2 cd.deck_count) tpct
            deck_count := p.2 } := by
  rw [buildCardCmdrs] at he
  have he2 := List.mem_filterMap.mp
    ((List.mem_insertionSort _).mp (List.mem_of_mem_take he))
  obtain ⟨p, hp, hf⟩ := he2
  refine ⟨p, hp, ?_⟩
  cases hc : lookupA byId p.1 with
  | none =>
    rw [hc] at hf
    simp at hf
  | some cd =>
    rw [hc] at hf
    simp only [Option.some.injEq] at hf
    exact ⟨cd, rfl, hf.symm⟩

theorem cardDetails_mem {st : AggState} {byId : AList CmdrData} {dtl : CardDetail}
    (h : dtl ∈ cardDetails st byId) :
    ∃ p ∈ st.global_card_counts, 3 ≤ p.2 ∧
      dtl = { entry := mkCardEntry st p.1 p.2
              commanders :=
                buildCardCmdrs st byId p.1 (inclusionPctT p.2 st.total_decks) } := by
  rw [cardDetails, List.mem_filterMap] at h
  obtain ⟨p, hp, hf⟩ := h
  by_cases hc : 3 ≤ p.2
  · simp only [if_pos hc, Option.some.injEq] at hf
    exact ⟨p, hp, hc, hf.symm⟩
  · simp only [if_neg hc] at hf
    cases hf

theorem topRecent_mem {st : AggState} {now : ℤ} {bC bD : List Str}
    {tr : RecentEntry} (h : tr ∈ topRecent st now bC bD) :
    ∃ cd ∈ commandersList st now bC bD,
      tr.base = cd ∧
      tr.deck_count_180d =
        ((lookupA st.commander_decks cd.name).getD []).countP (inWindow now 180) := by
  rw [topRecent] at h
  have h2 := List.mem_filterMap.mp
    ((List.mem_insertionSort _).mp (List.mem_of_mem_take h))
  obtain ⟨cd, hcd, hf⟩ := h2
  by_cases hc :
      0 < ((lookupA st.commander_decks cd.name).getD []).countP (inWindow now 180)
  · simp only [if_pos hc, Option.some.injEq] at hf
    exact ⟨cd, hcd, by rw [← hf], by rw [← hf]⟩
  · simp only [if_neg hc] at hf
    cases hf

/-! ### Window-predicate lemmas -/

theorem inWindow_mono {now d1 d2 : ℤ} (hd : d1 ≤ d2) (di : DeckInfo)
    (h : inWindow now d1 di = true) : inWindow now d2 di = true := by
  unfold inWindow at h ⊢
  cases hc : di.createdDt with
  | none => rw [hc] at h; cases h
  | some t =>
    rw [hc] at h
    have h2 : decide (now - d1 ≤ t) = true := h
    show decide (now - d2 ≤ t) = true
    simp only [decide_eq_true_eq] at h2 ⊢
    omega

theorem inWindow_isSome {now days : ℤ} {di : DeckInfo}
    (h : inWindow now days di = true) : di.createdDt.isSome := by
  unfold inWindow at h
  cases hc : di.createdDt with
  | none => rw [hc] at h; cases h
  | some t => rfl

theorem inWindow_of_none {now days : ℤ} {di : DeckInfo}
    (h : di.createdDt = none) : inWindow now days di = false := by
  unfold inWindow
  rw [h]

/-! ### `mkCmdrData` field lemmas -/

theorem mkCmdrData_name (st : AggState) (now : ℤ) (bC bD : List Str)
    (n : Str) (ds : List DeckInfo) :
    (mkCmdrData st now bC bD n ds).name = n := by
  simp [mkCmdrData]

theorem mkCmdrData_deck_count (st : AggState) (now : ℤ) (bC bD : List Str)
    (n : Str) (ds : List DeckInfo) :
    (mkCmdrData st now bC bD n ds).deck_count = ds.length := by
  simp [mkCmdrData]

theorem mkCmdrData_deck_count_90d (st : AggState) (now : ℤ) (bC bD : List Str)
    (n : Str) (ds : List DeckInfo) :
    (mkCmdrData st now bC bD n ds).deck_count_90d = ds.countP (inWindow now 90) := by
  simp [mkCmdrData]

theorem mkCmdrData_deck_count_30d (st : AggState) (now : ℤ) (bC bD : List Str)
    (n : Str) (ds : List DeckInfo) :
    (mkCmdrData st now bC bD n ds).deck_count_30d = ds.countP (inWindow now 30) := by
  simp [mkCmdrData]

theorem mkCmdrData_partners (st : AggState) (now : ℤ) (bC bD : List Str)
    (n : Str) (ds : List DeckInfo) :
    (mkCmdrData st now bC bD n ds).partners =
      if (lookupA st.commander_partners n).isSome then
        List.insertionSort (fun a b => b.deck_count ≤ a.deck_count)
          (((lookupA st.commander_partners n).getD []).map fun pname =>
            { name := pname
              id := slugify pname
              image_uri :=
                scryfall_image
                  (((lookupA st.commander_card_info pname).getD {}).scryfall_id.getD [])
              deck_count :=
                ((lookupA st.pair_decks (make_pair_id n pname)).getD []).length
              : PartnerEntry })
      else [] := by
  simp [mkCmdrData]

/-! ### Claim theorems -/

/-- C1: `ImageUrl` must not crash on short ids (empty → empty string,
short → empty string or handled validation error, never an unhandled
exception).  The code violates this: on the one-character id `"x"` the
assignment `a, b = scryfall_id[0], scryfall_id[1]` raises an uncaught
`IndexError` that would abort the batch, while the empty id and ids of
length ≥ 2 behave as described. -/
theorem scryfall_image_crashes_on_one_char_id :
    scryfall_image "x".data =
      Except.error "IndexError: string index out of range".data ∧
    scryfall_image "".data = Except.ok "".data ∧
    scryfall_image "ab12".data =
      Except.ok "https://cards.scryfall.io/normal/front/a/b/ab12.jpg".data := by
  decide

/-- C2 counterexample: a single deck whose `commanders` mapping has two
entries (distinct keys) resolving to the same card name `X` yields
`deck_count = 2` for `X`, while the number of distinct decks featuring
`X` is 1 — commander membership per deck is a list, not a set, so the
deck is double-counted. -/
theorem commander_deck_count_double_counts_duplicates :
    cmdrDeckCount (processDecks [deckDup]) "X".data = 2 ∧
    numDecksWithCommander [deckDup] "X".data = 1 := by
  decide

/-- C2 (amended): a commander's `deck_count` equals the total number of
commander entries resolving to that name, summed over qualifying decks —
duplicate same-name entries within one deck ARE double-counted.  When no
deck's resolved commander-name list contains duplicates, this equals the
number of distinct decks in which the commander appears. -/
theorem commander_deck_count_entry_multiplicity :
    ∀ (decks : List DeckIn) (c : Str),
    cmdrDeckCount (processDecks decks) c =
      (decks.map fun d => if qualifies d then occCount c (cmdrNames d) else 0).sum ∧
    ((∀ d ∈ decks, (cmdrNames d).Nodup) →
      cmdrDeckCount (processDecks decks) c = numDecksWithCommander decks c) := by
  intro decks c
  refine ⟨commander_decks_spec decks c, fun hnd => ?_⟩
  rw [commander_decks_spec decks c, numDecksWithCommander]
  refine sum_map_ite_eq_countP decks _ _ fun d hd => ?_
  by_cases hq : qualifies d
  · rw [if_pos hq, occCount_nodup (hnd d hd)]
    by_cases hm : c ∈ cmdrNames d
    · simp [hm, hq]
    · simp [hm, hq]
  · simp [hq]

theorem commander_deck_count_entry_multiplicity_witness :
    cmdrDeckCount (processDecks corpusEx) "Atraxa".data =
      numDecksWithCommander corpusEx "Atraxa".data ∧
    numDecksWithCommander corpusEx "Atraxa".data = 2 :=
  ⟨(commander_deck_count_entry_multiplicity corpusEx "Atraxa".data).2 (by decide),
   by decide⟩

/-- C4: the canonical pair id is symmetric in its two arguments, and two
decks listing the same two commanders in opposite orders accumulate into
one single pair record (`pair_decks` has exactly one key) whose deck list
has length 2. -/
theorem pair_id_symmetric_and_reversed_decks_accumulate :
    (∀ a b : Str, make_pair_id a b = make_pair_id b a) ∧
    lookupA stPair.pair_decks "thrasios--tymna".data =
      some [mkDeckInfo deckPair1, mkDeckInfo deckPair2] ∧
    ((lookupA stPair.pair_decks "thrasios--tymna".data).getD []).length = 2 ∧
    stPair.pair_decks.length = 1 :=
  ⟨make_pair_id_symm, by decide, by decide, by decide⟩

/-- C6: the percentage formula used at every percentage site: a zero
denominator yields 0 and never a division error (the formula is total);
`count = denominator > 0` yields `100.0`; for a positive denominator the
value is exactly Python's `round(count / denom * 100, 1)`; and every
entry emitted by `build_top_cards` carries exactly this formula applied
to its own deck count. -/
theorem inclusion_pct_spec :
    (∀ c : ℕ, inclusionPctT c 0 = 0) ∧
    (∀ n : ℕ, 0 < n → toPct (inclusionPctT n n) = 100) ∧
    (∀ c n : ℕ, 0 < n →
      toPct (inclusionPctT c n) = round1 ((c : ℚ) / (n : ℚ) * 100)) ∧
    (∀ (st : AggState) (cc : AList ℕ) (n : ℕ) (cat : Str)
        (l : List TopCardEntry) (e : TopCardEntry),
      (cat, l) ∈ build_top_cards st cc n → e ∈ l →
      e.inclusion_pct = inclusionPctT e.deck_count n) := by
  refine ⟨fun c => rfl, fun n h => ?_, toPct_inclusionPctT, ?_⟩
  · have h1000 : inclusionPctT n n = 1000 := by
      simp only [inclusionPctT, rheDiv, if_pos h, Nat.mul_div_cancel_left _ h,
        Nat.mul_mod_right]
      norm_num
    rw [h1000, toPct]
    norm_num
  · intro st cc n cat l e hl he
    obtain ⟨p, hp, rfl⟩ := build_top_cards_mem hl he
    simp [mkTopCard]

theorem inclusion_pct_spec_witness :
    inclusionPctT 5 0 = 0 ∧
    toPct (inclusionPctT 7 7) = 100 ∧
    toPct (inclusionPctT 2 3) = round1 ((2 : ℚ) / (3 : ℚ) * 100) ∧
    (mkTopCard stEx "Sol Ring".data 2 2).inclusion_pct =
      inclusionPctT (mkTopCard stEx "Sol Ring".data 2 2).deck_count 2 :=
  ⟨inclusion_pct_spec.1 5, inclusion_pct_spec.2.1 7 (by decide),
   inclusion_pct_spec.2.2.1 2 3 (by decide),
   inclusion_pct_spec.2.2.2 stEx
     ((lookupA stEx.commander_card_counts "Atraxa".data).getD []) 2
     "artifacts".data
     ((lookupA (build_top_cards stEx
       ((lookupA stEx.commander_card_counts "Atraxa".data).getD []) 2)
       "artifacts".data).getD [])
     (mkTopCard stEx "Sol Ring".data 2 2) (by decide) (by decide)⟩

/-- C7: the corpus-global card counter of every card equals the number
of qualifying decks whose mainboard card-name set contains the card —
each deck increments it exactly once, independent of its number of
commander references. -/
theorem global_card_counter_once_per_deck :
    ∀ (decks : List DeckIn) (c : Str),
    lookupD (processDecks decks).global_card_counts c = globalDeckCount decks c :=
  global_card_counts_spec

/-- C5: in both places a synergy score is emitted — `build_top_cards`
entries and per-card detail commander rows — the synergy equals
`round(inclusion_pct - global_pct, 1)` where both operands are the
already-rounded one-decimal percentages (the per-scope inclusion
percentage and the corpus-global percentage), the rounding applied after
each operand was rounded. -/
theorem synergy_rounded_after_operands :
    (∀ (st : AggState) (cc : AList ℕ) (n : ℕ) (cat : Str)
        (l : List TopCardEntry) (e : TopCardEntry),
      (cat, l) ∈ build_top_cards st cc n → e ∈ l →
      toPct e.synergy =
        round1 (toPct e.inclusion_pct -
          toPct (inclusionPctT (lookupD st.global_card_counts e.name)
            st.total_decks))) ∧
    (∀ (st : AggState) (byId : AList CmdrData) (dtl : CardDetail)
        (e : CardCmdrEntry),
      dtl ∈ cardDetails st byId → e ∈ dtl.commanders →
      toPct e.synergy =
        round1 (toPct e.inclusion_pct - toPct dtl.entry.total_pct)) := by
  constructor
  · intro st cc n cat l e hl he
    obtain ⟨p, hp, rfl⟩ := build_top_cards_mem hl he
    simp only [mkTopCard, synergyT, toPct]
    exact (round1_tenths_sub _ _).symm
  · intro st byId dtl e hdtl he
    obtain ⟨p, hp, h3, rfl⟩ := cardDetails_mem hdtl
    obtain ⟨q, hq, cd, hcd, rfl⟩ := buildCardCmdrs_mem he
    simp only [mkCardEntry, synergyT, toPct]
    exact (round1_tenths_sub _ _).symm

theorem synergy_rounded_after_operands_witness :
    toPct solEntryEx.synergy =
      round1 (toPct solEntryEx.inclusion_pct -
        toPct (inclusionPctT (lookupD stEx.global_card_counts solEntryEx.name)
          stEx.total_decks)) ∧
    toPct e3sol.synergy =
      round1 (toPct e3sol.inclusion_pct - toPct dtl3sol.entry.total_pct) :=
  ⟨synergy_rounded_after_operands.1 stEx
     ((lookupA stEx.commander_card_counts "Atraxa".data).getD []) 2
     "artifacts".data
     ((lookupA (build_top_cards stEx
       ((lookupA stEx.commander_card_counts "Atraxa".data).getD []) 2)
       "artifacts".data).getD [])
     solEntryEx (by decide) (by decide),
   synergy_rounded_after_operands.2 st3sol byId3sol dtl3sol e3sol
     (by decide) (by decide)⟩

/-- C9: a per-card detail record is produced exactly when the card's
corpus-global deck count is at least 3; concretely, a card in exactly 2
decks gets none and a card in exactly 3 decks gets one. -/
theorem card_detail_threshold :
    (∀ (decks : List DeckIn) (byId : AList CmdrData) (c : Str),
      (∃ dtl ∈ cardDetails (processDecks decks) byId, dtl.entry.name = c) ↔
        3 ≤ globalDeckCount decks c) ∧
    (∃ dtl ∈ cardDetails (processDecks corpus3sol) byId3sol,
      dtl.entry.name = "sol".data) ∧
    ¬(∃ dtl ∈ cardDetails (processDecks corpus2sol) [],
      dtl.entry.name = "sol".data) := by
  refine ⟨fun decks byId c => ⟨?_, ?_⟩, by decide, by decide⟩
  · rintro ⟨dtl, hdtl, hname⟩
    obtain ⟨p, hp, h3, rfl⟩ := cardDetails_mem hdtl
    have hpc : p.1 = c := by simpa [mkCardEntry] using hname
    subst hpc
    have hl := lookupA_eq_of_mem (keysNodup_global_card_counts decks) hp
    have hspec := global_card_counts_spec decks p.1
    rw [lookupD, hl] at hspec
    simp only [Option.getD_some] at hspec
    omega
  · intro h3
    have hspec := global_card_counts_spec decks c
    cases hk : lookupA (processDecks decks).global_card_counts c with
    | none =>
      rw [lookupD, hk] at hspec
      simp only [Option.getD_none] at hspec
      omega
    | some k =>
      rw [lookupD, hk] at hspec
      simp only [Option.getD_some] at hspec
      have hmem := mem_of_lookupA_eq hk
      refine ⟨{ entry := mkCardEntry (processDecks decks) c k
                commanders := buildCardCmdrs (processDecks decks) byId c
                  (inclusionPctT k (processDecks decks).total_decks) },
              ?_, ?_⟩
      · rw [cardDetails, List.mem_filterMap]
        exact ⟨(c, k), hmem, by rw [if_pos (by omega)]⟩
      · simp [mkCardEntry]

/-- C10: in every emitted commander record the `partners` array is
sorted in descending order of pair deck count, and each listed partner's
`deck_count` is the length of the deck list accumulated under the
canonical pair id of this commander and that partner (0 when that pair
record is absent, since the lookup falls back to the empty list). -/
theorem partners_sorted_desc_and_pair_counts :
    ∀ (st : AggState) (now : ℤ) (bC bD : List Str) (cd : CmdrData),
    cd ∈ commandersList st now bC bD →
    List.Sorted (fun a b : PartnerEntry => b.deck_count ≤ a.deck_count)
      cd.partners ∧
    ∀ p ∈ cd.partners,
      p.deck_count =
        ((lookupA st.pair_decks (make_pair_id cd.name p.name)).getD []).length := by
  intro st now bC bD cd hcd
  obtain ⟨q, hq, rfl⟩ := commandersList_mem hcd
  haveI : IsTotal PartnerEntry (fun a b => b.deck_count ≤ a.deck_count) :=
    ⟨fun a b => le_total b.deck_count a.deck_count⟩
  haveI : IsTrans PartnerEntry (fun a b => b.deck_count ≤ a.deck_count) :=
    ⟨fun _ _ _ h1 h2 => le_trans h2 h1⟩
  constructor
  · rw [mkCmdrData_partners]
    by_cases hpart : (lookupA st.commander_partners q.1).isSome
    · rw [if_pos hpart]
      exact List.sorted_insertionSort _ _
    · rw [if_neg hpart]
      exact List.sorted_nil
  · intro p hp
    rw [mkCmdrData_partners] at hp
    rw [mkCmdrData_name]
    by_cases hpart : (lookupA st.commander_partners q.1).isSome
    · rw [if_pos hpart] at hp
      have hp2 := (List.mem_insertionSort _).mp hp
      obtain ⟨pname, _, rfl⟩ := List.mem_map.mp hp2
      rfl
    · rw [if_neg hpart] at hp
      cases hp

theorem partners_sorted_desc_and_pair_counts_witness :
    (List.Sorted (fun a b : PartnerEntry => b.deck_count ≤ a.deck_count)
      cdThr.partners ∧
     ∀ p ∈ cdThr.partners,
       p.deck_count =
         ((lookupA stP.pair_decks (make_pair_id cdThr.name p.name)).getD []).length) ∧
    cdThr.partners.map (fun p => p.deck_count) = [2, 1] :=
  ⟨partners_sorted_desc_and_pair_counts stP 0 [] [] cdThr (by decide), by decide⟩

/-- C8: for every commander record built from an aggregated corpus,
`deck_count_30d ≤ deck_count_90d ≤ deck_count`; the lifetime
`deck_count` counts every deck of the commander (parseable timestamp or
not) while each window counts only decks whose parsed timestamp lies at
or after the cutoff; the 180-day count of every `top_20_recent` entry is
bounded by that commander's lifetime `deck_count`; and a deck with no
parseable timestamp satisfies no window predicate at all. -/
theorem recency_windows_nest :
    ∀ (decks : List DeckIn) (now : ℤ) (bC bD : List Str),
    (∀ cd ∈ commandersList (processDecks decks) now bC bD,
      cd.deck_count_30d ≤ cd.deck_count_90d ∧
      cd.deck_count_90d ≤ cd.deck_count ∧
      cd.deck_count =
        ((lookupA (processDecks decks).commander_decks cd.name).getD []).length ∧
      cd.deck_count_90d ≤
        ((lookupA (processDecks decks).commander_decks cd.name).getD []).countP
          (fun di => di.createdDt.isSome)) ∧
    (∀ tr ∈ topRecent (processDecks decks) now bC bD,
      tr.deck_count_180d ≤ tr.base.deck_count) ∧
    (∀ (days : ℤ) (di : DeckInfo),
      di.createdDt = none → inWindow now days di = false) := by
  intro decks now bC bD
  have hpart1 : ∀ cd ∈ commandersList (processDecks decks) now bC bD,
      cd.deck_count_30d ≤ cd.deck_count_90d ∧
      cd.deck_count_90d ≤ cd.deck_count ∧
      cd.deck_count =
        ((lookupA (processDecks decks).commander_decks cd.name).getD []).length ∧
      cd.deck_count_90d ≤
        ((lookupA (processDecks decks).commander_decks cd.name).getD []).countP
          (fun di => di.createdDt.isSome) := by
    intro cd hcd
    obtain ⟨p, hp, rfl⟩ := commandersList_mem hcd
    have hlook :
        lookupA (processDecks decks).commander_decks p.1 = some p.2 :=
      lookupA_eq_of_mem (keysNodup_commander_decks decks) hp
    rw [mkCmdrData_deck_count_30d, mkCmdrData_deck_count_90d,
      mkCmdrData_deck_count, mkCmdrData_name, hlook]
    simp only [Option.getD_some]
    refine ⟨?_, List.countP_le_length _, by trivial, ?_⟩
    · exact List.countP_mono_left
        (fun di _ h => inWindow_mono (by norm_num) di h)
    · exact List.countP_mono_left (fun di _ h => inWindow_isSome h)
  refine ⟨hpart1, ?_, fun days di h => inWindow_of_none h⟩
  intro tr htr
  obtain ⟨cd, hcd, hbase, h180⟩ := topRecent_mem htr
  obtain ⟨_, _, hcount, _⟩ := hpart1 cd hcd
  rw [hbase, h180, hcount]
  exact List.countP_le_length _

theorem recency_windows_nest_witness :
    (cdT.deck_count_30d ≤ cdT.deck_count_90d ∧
     cdT.deck_count_90d ≤ cdT.deck_count ∧
     cdT.deck_count =
       ((lookupA stT.commander_decks cdT.name).getD []).length ∧
     cdT.deck_count_90d ≤
       ((lookupA stT.commander_decks cdT.name).getD []).countP
         (fun di => di.createdDt.isSome)) ∧
    cdT.deck_count_30d = 1 ∧ cdT.deck_count_90d = 2 ∧ cdT.deck_count = 3 :=
  ⟨(recency_windows_nest [deckT1, deckT2, deckT3] 100 [] []).1 cdT (by decide),
   by decide, by decide, by decide⟩

/-- C3 (amended): the commanders array of a per-card detail record keeps
only the top 50 commanders by per-commander deck count; whenever the
card appeared under at most 50 tracked commanders, every one of them
that resolves in `cmdr_by_id` is listed, with its inclusion percentage
and synergy score. -/
theorem card_detail_lists_top50_commanders :
    ∀ (st : AggState) (byId : AList CmdrData) (cname : Str) (tpct : ℤ),
    ((lookupA st.card_commander_counts cname).getD []).length ≤ 50 →
    ∀ p ∈ (lookupA st.card_commander_counts cname).getD [],
    ∀ cd : CmdrData, lookupA byId p.1 = some cd →
    ∃ e ∈ buildCardCmdrs st byId cname tpct,
      e.id = p.1 ∧ e.name = cd.name ∧ e.deck_count = p.2 ∧
      e.inclusion_pct = inclusionPctT p.2 cd.deck_count ∧
      e.synergy = synergyT (inclusionPctT p.2 cd.deck_count) tpct := by
  intro st byId cname tpct hlen p hp cd hcd
  refine ⟨{ name := cd.name
            id := p.1
            image_uri := cd.image_uri
            inclusion_pct := inclusionPctT p.2 cd.deck_count
            synergy := synergyT (inclusionPctT p.2 cd.deck_count) tpct
            deck_count := p.2 }, ?_, rfl, rfl, rfl, rfl, rfl⟩
  rw [buildCardCmdrs]
  have hraw : ({ name := cd.name
                 id := p.1
                 image_uri := cd.image_uri
                 inclusion_pct := inclusionPctT p.2 cd.deck_count
                 synergy := synergyT (inclusionPctT p.2 cd.deck_count) tpct
                 deck_count := p.2 : CardCmdrEntry }) ∈
      ((lookupA st.card_commander_counts cname).getD []).filterMap fun q =>
        match lookupA byId q.1 with
        | none => none
        | some cd2 =>
          some { name := cd2.name
                 id := q.1
                 image_uri := cd2.image_uri
                 inclusion_pct := inclusionPctT q.2 cd2.deck_count
                 synergy := synergyT (inclusionPctT q.2 cd2.deck_count) tpct
                 deck_count := q.2
                 : CardCmdrEntry } := by
    refine List.mem_filterMap.mpr ⟨p, hp, ?_⟩
    rw [hcd]
  have hle :
      (List.insertionSort (fun a b => b.deck_count ≤ a.deck_count)
        (((lookupA st.card_commander_counts cname).getD []).filterMap fun q =>
          match lookupA byId q.1 with
          | none => none
          | some cd2 =>
            some { name := cd2.name
                   id := q.1
                   image_uri := cd2.image_uri
                   inclusion_pct := inclusionPctT q.2 cd2.deck_count
                   synergy := synergyT (inclusionPctT q.2 cd2.deck_count) tpct
                   deck_count := q.2
                   : CardCmdrEntry })).length ≤ 50 := by
    rw [(List.perm_insertionSort _ _).length_eq]
    exact le_trans (List.length_filterMap_le _ _) hlen
  rw [List.take_of_length_le hle]
  exact (List.mem_insertionSort _).mpr hraw

theorem card_detail_lists_top50_commanders_witness :
    ∃ e ∈ buildCardCmdrs st3sol byId3sol "sol".data
        (inclusionPctT 3 st3sol.total_decks),
      e.id = slugify (natName 0) ∧
      e.name = natName 0 ∧
      e.deck_count = 1 ∧
      e.inclusion_pct = inclusionPctT 1 1 ∧
      e.synergy = synergyT (inclusionPctT 1 1) (inclusionPctT 3 3) := by
  have h := card_detail_lists_top50_commanders st3sol byId3sol "sol".data
    (inclusionPctT 3 st3sol.total_decks) (by decide)
    (slugify (natName 0), 1) (by decide)
    ((lookupA byId3sol (slugify (natName 0))).getD
      (mkCmdrData st3sol 0 [] [] (natName 0)
        ((lookupA st3sol.commander_decks (natName 0)).getD []))) (by decide)
  obtain ⟨e, he, h1, h2, h3, h4, h5⟩ := h
  exact ⟨e, he, h1, by rw [h2]; decide, h3, by rw [h4]; decide, by rw [h5]; decide⟩

/-- C3 counterexample: over a 51-commander corpus the detail record for
`sol` (which appeared under all 51 commanders, each resolving in
`cmdr_by_id`) omits commander `c50`: the claim that no commander is ever
omitted regardless of how many there are is false. -/
theorem card_detail_omits_51st_commander :
    (∃ dtl ∈ cardDetails st51 byId51,
      dtl.entry.name = "sol".data ∧
      ∀ e ∈ dtl.commanders, e.id ≠ slugify (natName 50)) ∧
    lookupD ((lookupA st51.card_commander_counts "sol".data).getD [])
      (slugify (natName 50)) = 1 ∧
    (lookupA byId51 (slugify (natName 50))).isSome := by
  decide

end RudcRec
